import Mathlib

/-!
Verification of the RetroEmulator ROM-launcher pipeline.

Strings are modelled as `List Char`.  Each definition is a shallow embedding
of the corresponding C++ function; external effects (libcurl transport, JSON
parsing by nlohmann, SDL decoding, the filesystem, std::system) are abstracted
as explicit environment records, and effect logs (network requests performed,
image decodes performed, processes spawned) are returned alongside results.
-/

set_option autoImplicit false

namespace RetroEmulator

/-! ### String primitives (embedding the std::string operations used) -/

/-- `leadsWith pat s` holds when `pat` occurs at the start of `s`
(the matching step of `std::string::find`). -/
def leadsWith : List Char → List Char → Bool
  | [], _ => true
  | _ :: _, [] => false
  | p :: ps, c :: cs => p == c && leadsWith ps cs

/-- `std::string::find(pat)`: index of the first occurrence of the substring
`pat`, `none` for `npos`. -/
def strFind (pat : List Char) : List Char → Option Nat
  | [] => if pat.isEmpty then some 0 else none
  | c :: rest =>
    if leadsWith pat (c :: rest) then some 0
    else (strFind pat rest).map (fun i => i + 1)

/-- Index of the last character satisfying `p`, `none` for `npos`. -/
def findLastIdx (p : Char → Bool) : List Char → Option Nat
  | [] => none
  | c :: rest =>
    match findLastIdx p rest with
    | some i => some (i + 1)
    | none => if p c then some 0 else none

/-- `std::string::find_last_of(c)`. -/
def findLastOf (c : Char) (s : List Char) : Option Nat :=
  findLastIdx (fun x => x == c) s

/-- `std::string::find_last_of(cs, pos)`: last index `≤ pos` of a character
drawn from `cs`. -/
def findLastOfSet (cs : List Char) (s : List Char) (pos : Nat) : Option Nat :=
  findLastIdx (fun x => cs.contains x) (s.take (pos + 1))

/-- `s.substr(0, s.find_last_of('.'))` — strip the final `.`-delimited
extension; a no-op when `s` has no dot (`substr(0, npos)` keeps everything). -/
def stripExt (s : List Char) : List Char :=
  match findLastOf '.' s with
  | some i => s.take i
  | none => s

/-- `std::replace(begin, end, '_', ' ')`. -/
def replaceUnderscores (s : List Char) : List Char :=
  s.map (fun c => if c = '_' then ' ' else c)

/-- Truncate at the first occurrence of `pat`
(`pos = s.find(pat); if (pos != npos) s = s.substr(0, pos)`). -/
def truncAtFirst (pat s : List Char) : List Char :=
  match strFind pat s with
  | some i => s.take i
  | none => s

/-- Recursive reformulation of `truncAtFirst`, used for induction. -/
def truncAtFirstRec (pat : List Char) : List Char → List Char
  | [] => []
  | c :: rest =>
    if leadsWith pat (c :: rest) then []
    else c :: truncAtFirstRec pat rest

/-- Decimal rendering of an integer (`std::to_string`). -/
def intToStr (n : Int) : List Char :=
  (toString n).toList

/-- The pattern `" ("` that begins a region/version annotation. -/
def parenPat : List Char := " (".toList

/-! ### Filename normalization (igdb_client.cpp)

`IGDBClient::cleanGameName` (lines 143–151) strips the extension, replaces
underscores with spaces, then truncates at the first `" ("`.
`IGDBClient::fetchGameMetadata` (lines 313–329) normalizes inline in a
different order: strip extension, truncate at `" ("`, then replace
underscores. -/

/-- `IGDBClient::cleanGameName`. -/
def cleanGameName (filename : List Char) : List Char :=
  truncAtFirst parenPat (replaceUnderscores (stripExt filename))

/-- The inline normalization at the start of `IGDBClient::fetchGameMetadata`:
extension strip, then `" ("` truncation, then underscore replacement. -/
def fetchNormalize (game_name : List Char) : List Char :=
  replaceUnderscores (truncAtFirst parenPat (stripExt game_name))

/-! ### GameMetadata (game_metadata.h) -/

/-- The `GameMetadata` struct; all fields default-construct to `""`. -/
structure GameMetadata where
  filename : List Char := []
  title : List Char := []
  description : List Char := []
  releaseYear : List Char := []
  publisher : List Char := []
  genre : List Char := []
  imagePath : List Char := []
  igdbUrl : List Char := []
deriving Repr, DecidableEq

/-- `IGDBClient::extractMetadataFromFilename` (igdb_client.cpp lines 265–296):
the deterministic filename-only fallback record. -/
def extractMetadataFromFilename (filename : List Char) : GameMetadata :=
  let cleanName := truncAtFirst parenPat (replaceUnderscores (stripExt filename))
  { filename := filename
    title := cleanName
    description := "No description found in IGDB database".toList
    releaseYear := "Not Found".toList
    publisher := "Not Found".toList
    genre := "Not Found".toList
    igdbUrl := []
    imagePath := "../assets/not_found.png".toList }

/-! ### JSON values (the fragment of nlohmann::json the client uses) -/

/-- JSON values as produced by `nlohmann::json::parse`. -/
inductive Json where
  | null : Json
  | jb : Bool → Json
  | jn : Int → Json
  | js : List Char → Json
  | ja : List Json → Json
  | jo : List (List Char × Json) → Json
deriving Repr

/-- Key lookup in an object field list (first binding wins). -/
def lookupField : List (List Char × Json) → List Char → Option Json
  | [], _ => none
  | (k, v) :: rest, key => if k = key then some v else lookupField rest key

/-- `operator[]` / `find` on an object; `none` when the value is not an
object or the key is absent. -/
def Json.objFind : Json → List Char → Option Json
  | Json.jo fs, key => lookupField fs key
  | _, _ => none

/-- `nlohmann::json::contains`: `false` on non-objects. -/
def Json.containsKey (j : Json) (key : List Char) : Bool :=
  (j.objFind key).isSome

/-- `get<int>()` (and `get<std::time_t>()`): `none` models the
`type_error` exception thrown on a non-number. -/
def Json.asInt : Json → Option Int
  | Json.jn n => some n
  | _ => none

/-- `is_number()`. -/
def Json.isNum : Json → Bool
  | Json.jn _ => true
  | _ => false

/-- `nlohmann::json::value(key, default)` for a string default: the default
when the key is absent, the string when present as a string, and `none`
(a thrown `type_error`) when the receiver is not an object or the value has
another type. -/
def Json.valueStr : Json → List Char → List Char → Option (List Char)
  | Json.jo fs, key, dflt =>
    match lookupField fs key with
    | none => some dflt
    | some (Json.js s) => some s
    | some _ => none
  | _, _, _ => none

/-! ### Remote catalog client (igdb_client.cpp) -/

/-- A network/OS operation performed by the client: an IGDB request
(`makeIGDBRequest endpoint query`) or a cover download
(`downloadGameCover url path`). -/
inductive NetOp where
  | req : List Char → List Char → NetOp
  | dl : List Char → List Char → NetOp
deriving Repr, DecidableEq

/-- The external world the client interacts with: `request` is the response
body of `makeIGDBRequest` (`""` on transport failure), `parse` is
`nlohmann::json::parse` (`none` models a thrown parse error), `download` is
the outcome of `downloadGameCover`, and `localtime` maps a Unix timestamp to
`tm_year` (`none` models `std::localtime` returning a null pointer). -/
structure FetchEnv where
  request : List Char → List Char → List Char
  parse : List Char → Option Json
  download : List Char → List Char → Bool
  localtime : Int → Option Int

/-- The quote-escaping loop in `fetchGameMetadata` (`"` becomes `\"`). -/
def escapeQuotes : List Char → List Char
  | [] => []
  | c :: rest =>
    if c = '"' then '\\' :: '"' :: escapeQuotes rest
    else c :: escapeQuotes rest

/-- The first search query: `search "<escaped>"; fields name; where platforms = (18);`. -/
def searchQuery (clean_name : List Char) : List Char :=
  "search \"".toList ++ escapeQuotes clean_name ++
    "\"; fields name; where platforms = (18);".toList

/-- The detail query for a game id. -/
def detailQuery (game_id : Int) : List Char :=
  "fields name,first_release_date,genres.name,cover.url,summary,involved_companies.company.name,url; where id = ".toList
    ++ intToStr game_id ++ ";".toList

/-- The publisher loop: first involved company whose `company.name` is a
string. -/
def firstCompanyName : List Json → Option (List Char)
  | [] => none
  | cd :: rest =>
    match cd.objFind "company".toList with
    | some comp =>
      match comp.objFind "name".toList with
      | some (Json.js s) => some s
      | _ => firstCompanyName rest
    | none => firstCompanyName rest

/-- The genre loop: first genre whose `name` is a string. -/
def firstGenreName : List Json → Option (List Char)
  | [] => none
  | g :: rest =>
    match g.objFind "name".toList with
    | some (Json.js s) => some s
    | _ => firstGenreName rest

/-- The mapping of a detail-response object to a `GameMetadata`
(igdb_client.cpp lines 379–438).  `none` models an exception escaping the
mapping (a `type_error` from `value` or from `get<int>` on `id` is raised
before this point); inside, the release-date and cover blocks have their own
catch handlers and cannot fail.  The second component is the list of cover
downloads attempted. -/
def mapGameRecord (env : FetchEnv) (game_name clean_name : List Char) (game : Json) :
    Option (GameMetadata × List NetOp) :=
  match game.valueStr "name".toList clean_name with
  | none => none
  | some title =>
    match game.valueStr "summary".toList "Classic NES game".toList with
    | none => none
    | some descr =>
      match game.valueStr "url".toList [] with
      | none => none
      | some url =>
        let releaseYear :=
          match game.objFind "first_release_date".toList with
          | some (Json.jn ts) =>
            match env.localtime ts with
            | some year => intToStr (1900 + year)
            | none => "Unknown".toList
          | _ => "Unknown".toList
        let publisher :=
          match game.objFind "involved_companies".toList with
          | some (Json.ja companies) =>
            (firstCompanyName companies).getD "Unknown".toList
          | _ => "Unknown".toList
        let genre :=
          match game.objFind "genres".toList with
          | some (Json.ja gs) => (firstGenreName gs).getD "Unknown".toList
          | _ => "Unknown".toList
        let coverStep :=
          match game.objFind "cover".toList with
          | some cover =>
            match cover with
            | Json.jo _ =>
              match cover.objFind "url".toList with
              | some (Json.js u) =>
                let cover_url := "https:".toList ++ u
                let image_path := "images/".toList ++ clean_name ++ ".png".toList
                if env.download cover_url image_path then
                  (image_path, [NetOp.dl cover_url image_path])
                else ([], [NetOp.dl cover_url image_path])
              | _ => (([] : List Char), ([] : List NetOp))
            | _ => ([], [])
          | none => ([], [])
        some ({ filename := game_name
                title := title
                description := descr
                releaseYear := releaseYear
                publisher := publisher
                genre := genre
                imagePath := coverStep.1
                igdbUrl := url }, coverStep.2)

/-- `IGDBClient::fetchGameMetadata` (igdb_client.cpp lines 304–450), with the
requests and downloads performed returned as a log.  Every error path
returns the filename-only fallback record. -/
def fetchGameMetadata (env : FetchEnv) (access_token game_name : List Char) :
    GameMetadata × List NetOp :=
  if access_token = [] then (extractMetadataFromFilename game_name, [])
  else
    let clean_name := fetchNormalize game_name
    let query1 := searchQuery clean_name
    let response1 := env.request "games".toList query1
    let log1 := [NetOp.req "games".toList query1]
    if response1 = [] then (extractMetadataFromFilename game_name, log1)
    else
      match env.parse response1 with
      | none => (extractMetadataFromFilename game_name, log1)
      | some j =>
        match j with
        | Json.ja (first :: _) =>
          match first.objFind "id".toList with
          | none => (extractMetadataFromFilename game_name, log1)
          | some idv =>
            match idv.asInt with
            | none => (extractMetadataFromFilename game_name, log1)
            | some game_id =>
              let query2 := detailQuery game_id
              let response2 := env.request "games".toList query2
              let log2 := log1 ++ [NetOp.req "games".toList query2]
              if response2 = [] then (extractMetadataFromFilename game_name, log2)
              else
                match env.parse response2 with
                | none => (extractMetadataFromFilename game_name, log2)
                | some j2 =>
                  match j2 with
                  | Json.ja (game :: _) =>
                    match mapGameRecord env game_name clean_name game with
                    | none => (extractMetadataFromFilename game_name, log2)
                    | some (m, dls) => (m, log2 ++ dls)
                  | _ => (extractMetadataFromFilename game_name, log2)
        | _ => (extractMetadataFromFilename game_name, log1)

/-! ### Cover download (igdb_client.cpp lines 203–257)

The filesystem is a partial map from paths to contents; `transport` is the
body received by libcurl (`none` on a failed `curl_easy_perform`), and
`openOk` is whether `std::ofstream` can open the output path. -/

/-- Environment for `downloadGameCover`. -/
structure DlEnv where
  transport : List Char → Option (List Char)
  openOk : List Char → Bool

/-- `IGDBClient::downloadGameCover`: returns the success flag and the updated
filesystem. -/
def downloadGameCover (env : DlEnv) (url output_path : List Char)
    (fs : List Char → Option (List Char)) :
    Bool × (List Char → Option (List Char)) :=
  if url = [] then (false, fs)
  else
    match env.transport url with
    | none => (false, fs)
    | some image_data =>
      if env.openOk output_path = false then (false, fs)
      else
        let fs1 := fun q => if q = output_path then some image_data else fs q
        if (fs1 output_path).isSome ∧ 0 < ((fs1 output_path).getD []).length then
          (true, fs1)
        else
          (false, fun q => if q = output_path then none else fs1 q)

/-! ### SDL UI layout constants (sdl_ui.h) -/

def WINDOW_WIDTH : Nat := 800
def WINDOW_HEIGHT : Nat := 600
def GAME_ITEM_HEIGHT : Nat := 140
def GAME_ITEM_PADDING : Nat := 20
def DESCRIPTION_LINE_HEIGHT : Nat := 25
def MAX_DESCRIPTION_LINES : Nat := 2
def COVER_IMAGE_SIZE : Nat := 100
def TEXT_START_X : Nat := 130

/-! ### Texture loading (sdl_ui.cpp lines 78–101)

`IMG_Load` is abstracted by a decode predicate; the state records every
decode attempted and allocates a fresh handle for each texture
`SDL_CreateTextureFromSurface` produces.  Note that the source keeps no map
from paths to textures: every call decodes anew. -/

/-- Whether `IMG_Load` succeeds at a given path. -/
structure TexEnv where
  decodeOk : List Char → Bool

/-- SDL-side state: the log of decode attempts and the next fresh texture
handle. -/
structure TexState where
  decodes : List (List Char)
  nextTexId : Nat
deriving Repr, DecidableEq

/-- `SDLUI::loadTextureFromFile`: decode at `path`; on failure retry at
`"../assets/" + path`; on both failures return no texture. -/
def loadTextureFromFile (env : TexEnv) (path : List Char) (st : TexState) :
    Option Nat × TexState :=
  let st1 : TexState := { st with decodes := st.decodes ++ [path] }
  if env.decodeOk path then
    (some st1.nextTexId, { st1 with nextTexId := st1.nextTexId + 1 })
  else
    let assetPath := "../assets/".toList ++ path
    let st2 : TexState := { st1 with decodes := st1.decodes ++ [assetPath] }
    if env.decodeOk assetPath then
      (some st2.nextTexId, { st2 with nextTexId := st2.nextTexId + 1 })
    else (none, st2)

/-! ### Word-wrapped description rendering (sdl_ui.cpp lines 151–229, 275–308)

`TTF_SizeText` is abstracted by a width function.  Rendering a description
produces the list of rendered lines, each paired with the flag of whether the
" Read More" suffix was drawn next to it. -/

/-- The while-loop that shortens the second line until `" Read More"` fits
(sdl_ui.cpp lines 208–211).  In the source the loop repeats
`line = line.substr(0, line.find_last_of(" "))`, which leaves the line
unchanged when it contains no space (and then never terminates); the fuel
argument makes the embedding total and is irrelevant on terminating runs. -/
def shrinkLine (width : List Char → Nat) (readMoreW lineWidth : Nat) :
    Nat → List Char → List Char
  | 0, line => line
  | fuel + 1, line =>
    if lineWidth < width line + readMoreW + 10 ∧ line ≠ [] then
      let line2 :=
        match findLastOf ' ' line with
        | some i => line.take i
        | none => line
      shrinkLine width readMoreW lineWidth fuel line2
    else line

/-- The second-line rendering with the `" Read More"` affordance
(sdl_ui.cpp lines 191–214): the affordance is always drawn; the text is
shortened first when there is not enough room. -/
def secondLineText (width : List Char → Nat) (lineWidth : Nat) (line : List Char) :
    List Char :=
  let readMoreW := width " Read More".toList
  let currentW := width line
  if readMoreW + 10 < lineWidth - currentW then line
  else shrinkLine width readMoreW lineWidth (line.length + 1) line

/-- The wrap loop of `SDLUI::renderWrappedText`; each produced pair is the
text of a rendered line together with whether `" Read More"` was drawn after
it.  `linesRendered` counts the lines already drawn and the fuel is
`MAX_DESCRIPTION_LINES - linesRendered`. -/
def renderWrappedGo (width : List Char → Nat) (lineWidth : Nat) :
    Nat → Nat → List Char → List (List Char × Bool)
  | 0, _, _ => []
  | fuel + 1, linesRendered, remaining =>
    if remaining = [] then []
    else
      let textWidth := width remaining
      if textWidth = 0 then []
      else
        let charsPerLine := min (max 1 (lineWidth * remaining.length / textWidth)) remaining.length
        let lineEnd0 :=
          match findLastOfSet " \n".toList remaining charsPerLine with
          | none => charsPerLine
          | some i => if charsPerLine < i then charsPerLine else i
        let lineEnd := min lineEnd0 remaining.length
        let line := remaining.take lineEnd
        let entry :=
          if linesRendered = 1 then (secondLineText width lineWidth line, true)
          else (line, false)
        if remaining.length ≤ lineEnd then [entry]
        else entry :: renderWrappedGo width lineWidth fuel (linesRendered + 1)
          (remaining.drop (lineEnd + 1))

/-- `SDLUI::renderWrappedText` (used for entries with a non-empty
`igdbUrl`). -/
def renderWrappedText (width : List Char → Nat) (lineWidth : Nat)
    (text : List Char) : List (List Char × Bool) :=
  if text = [] then []
  else renderWrappedGo width lineWidth MAX_DESCRIPTION_LINES 0 text

/-- The inline plain wrap loop of `SDLUI::renderGameList`
(lines 280–307), used for entries with an empty `igdbUrl`: identical line
breaking, never any `" Read More"`. -/
def renderPlainGo (width : List Char → Nat) (lineWidth : Nat) :
    Nat → List Char → List (List Char)
  | 0, _ => []
  | fuel + 1, remaining =>
    if remaining = [] then []
    else
      let textWidth := width remaining
      if textWidth = 0 then []
      else
        let charsPerLine := min (max 1 (lineWidth * remaining.length / textWidth)) remaining.length
        let lineEnd0 :=
          match findLastOfSet " \n".toList remaining charsPerLine with
          | none => charsPerLine
          | some i => if charsPerLine < i then charsPerLine else i
        let lineEnd := min lineEnd0 remaining.length
        let line := remaining.take lineEnd
        if remaining.length ≤ lineEnd then [line]
        else line :: renderPlainGo width lineWidth fuel (remaining.drop (lineEnd + 1))

/-- The description-rendering dispatch of `SDLUI::renderGameList`
(lines 275–308): entries with an IGDB URL go through `renderWrappedText`,
others through the plain loop. -/
def renderDescription (width : List Char → Nat) (lineWidth : Nat)
    (igdbUrl descr : List Char) : List (List Char × Bool) :=
  if igdbUrl = [] then
    (renderPlainGo width lineWidth MAX_DESCRIPTION_LINES descr).map (fun l => (l, false))
  else renderWrappedText width lineWidth descr

/-- Whether a `" Read More"` affordance appears among the rendered lines. -/
def readMoreShown (lines : List (List Char × Bool)) : Bool :=
  lines.any (fun p => p.2)

/-! ### Input handling (sdl_ui.cpp lines 316–451) -/

/-- The SDL events `SDLUI::handleInput` distinguishes. -/
inductive UIEvent where
  | quit : UIEvent
  | keyUp : UIEvent
  | keyDown : UIEvent
  | keyReturn : UIEvent
  | keyEscape : UIEvent
  | mouseMotion : Int → Int → UIEvent
  | mouseDown : Int → Int → UIEvent
  | otherEvent : UIEvent
deriving Repr, DecidableEq

/-- The `" Read More"` hit test of the `SDL_MOUSEBUTTONDOWN` handler
(lines 391–426): walk the entries accumulating `y`, and return the first
entry's `igdbUrl` whose link rectangle contains the click. -/
def readMoreHit (width : List Char → Nat) :
    List GameMetadata → Int → Int → Int → Option (List Char)
  | [], _, _, _ => none
  | g :: rest, x, ycoord, y =>
    if g.igdbUrl ≠ [] then
      let textX : Int := if g.imagePath ≠ [] then (TEXT_START_X : Int) else 20
      let linkY : Int := y + 50 + (DESCRIPTION_LINE_HEIGHT : Int)
      let textWidth : Int := (width g.description : Int)
      let readMoreW : Int := (width " Read More".toList : Int)
      if textX + textWidth ≤ x ∧ x ≤ textX + textWidth + readMoreW + 5 ∧
          linkY ≤ ycoord ∧ ycoord ≤ linkY + (DESCRIPTION_LINE_HEIGHT : Int) then
        some g.igdbUrl
      else
        readMoreHit width rest x ycoord (y + (GAME_ITEM_HEIGHT : Int) + (GAME_ITEM_PADDING : Int))
    else
      readMoreHit width rest x ycoord (y + (GAME_ITEM_HEIGHT : Int) + (GAME_ITEM_PADDING : Int))

/-- `SDLUI::handleInput`: drain the event queue, returning the new
`selectedIndex`, the new `gameSelected` flag, and the URLs opened via
`xdg-open`.  `quit`/`Escape`, `Return`, and a click on a `" Read More"`
region return immediately (dropping the rest of the queue). -/
def handleInput (width : List Char → Nat) (gameList : List GameMetadata) :
    List UIEvent → Int → Bool → Int × Bool × List (List Char)
  | [], sel, gs => (sel, gs, [])
  | e :: rest, sel, gs =>
    match e with
    | UIEvent.quit => (-1, gs, [])
    | UIEvent.keyUp =>
      handleInput width gameList rest (if 0 < sel then sel - 1 else sel) gs
    | UIEvent.keyDown =>
      handleInput width gameList rest
        (if sel < (gameList.length : Int) - 1 then sel + 1 else sel) gs
    | UIEvent.keyReturn => (sel, true, [])
    | UIEvent.keyEscape => (-1, gs, [])
    | UIEvent.mouseMotion _ _ => handleInput width gameList rest sel gs
    | UIEvent.mouseDown x y =>
      match readMoreHit width gameList x y (GAME_ITEM_PADDING : Int) with
      | some url => (sel, gs, [url])
      | none => handleInput width gameList rest sel gs
    | UIEvent.otherEvent => handleInput width gameList rest sel gs

/-- The polling loop of `SDLUI::displayGameList` (lines 437–450), driven by
the finite script of per-frame event queues: `none` means the script ended
with the loop still in the listing state. -/
def displayGameListLoop (width : List Char → Nat) (gameList : List GameMetadata) :
    List (List UIEvent) → Int → Option Int × List (List Char)
  | [], _ => (none, [])
  | frame :: frames, sel =>
    match handleInput width gameList frame sel false with
    | (sel2, gs2, opens) =>
      if sel2 = -1 then (some (-1), opens)
      else if gs2 then (some sel2, opens)
      else
        let rest := displayGameListLoop width gameList frames sel2
        (rest.1, opens ++ rest.2)

/-! ### Emulator launcher (emulator_launcher.cpp) -/

/-- The `EmulatorLauncher` member state. -/
structure EmuState where
  emulatorPath : List Char
  lastError : List Char
  initialized : Bool
deriving Repr, DecidableEq

/-- The default-constructed launcher: `initialized(false)`, empty strings. -/
def initialEmuState : EmuState :=
  { emulatorPath := [], lastError := [], initialized := false }

/-- `EmulatorLauncher::setError`. -/
def setError (st : EmuState) (e : List Char) : EmuState :=
  { st with lastError := e }

/-- `EmulatorLauncher::init`. -/
def emuInit (path : List Char) (st : EmuState) : Bool × EmuState :=
  let st1 := { st with emulatorPath := path }
  if path = [] then (false, setError st1 "No emulator path specified".toList)
  else (true, { st1 with initialized := true })

/-- The filename component of a path (after the last `/`). -/
def pathFilename (p : List Char) : List Char :=
  match findLastOf '/' p with
  | some i => p.drop (i + 1)
  | none => p

/-- `std::filesystem::path::extension`: the final dot-suffix of the filename
component; empty for `.`, `..`, dotfiles, and filenames without a dot. -/
def pathExtension (p : List Char) : List Char :=
  let f := pathFilename p
  if f = ['.'] ∨ f = ['.', '.'] then []
  else
    match findLastOf '.' f with
    | none => []
    | some 0 => []
    | some i => f.drop i

/-- The launcher's external world: whether a ROM file exists, and the result
of `std::system` on a command line. -/
structure LaunchEnv where
  romExists : List Char → Bool
  runCommand : List Char → Int

/-- `EmulatorLauncher::validateRom`. -/
def validateRom (env : LaunchEnv) (st : EmuState) (romPath : List Char) :
    Bool × EmuState :=
  if env.romExists romPath = false then
    (false, setError st ("ROM file does not exist: ".toList ++ romPath))
  else if pathExtension romPath ≠ ".nes".toList then
    (false, setError st ("Invalid ROM file type: ".toList ++ romPath))
  else (true, st)

/-- The non-Windows emulator command line:
`"<emulatorPath>" "<romPath>" &`. -/
def launchCommand (emulatorPath romPath : List Char) : List Char :=
  "\"".toList ++ emulatorPath ++ "\" \"".toList ++ romPath ++ "\" &".toList

/-- `EmulatorLauncher::launchGame`, also returning the list of commands
passed to `std::system` (the spawn log). -/
def launchGame (env : LaunchEnv) (st : EmuState) (romPath : List Char) :
    Bool × EmuState × List (List Char) :=
  if st.initialized = false then
    (false, setError st "Emulator not initialized".toList, [])
  else
    match validateRom env st romPath with
    | (false, st2) => (false, st2, [])
    | (true, st2) =>
      let command := launchCommand st2.emulatorPath romPath
      if env.runCommand command = 0 then (true, st2, [command])
      else (false, setError st2 "Failed to launch emulator".toList, [command])

/-- `EmulatorLauncher::getLastError`. -/
def getLastError (st : EmuState) : List Char :=
  st.lastError

/-! ### Program entry point (main.cpp, reproduced in the README) -/

/-- `SDLUI::initIGDB` (sdl_ui.cpp lines 70–76): records whether the catalog
client authenticated but always reports success, because catalog features
are optional. -/
def initIGDB (_igdbClientInitOk : Bool) : Bool :=
  true

/-- The abstract run of `main`: whether each initialization succeeds, the
scanned ROM list, and the script of successive `displayGameList` results. -/
structure MainEnv where
  uiInitOk : Bool
  igdbInitOk : Bool
  roms : List (List Char)
  selections : List Int

/-- The selection/launch loop of `main`: `-1` breaks out (exit 0); any other
selection launches the game and continues whether or not the launch
succeeded (a failure only shows an error screen).  `none` means the script
ended with the loop still running. -/
def mainLoop : List Int → Option Nat
  | [] => none
  | sel :: rest => if sel = -1 then some 0 else mainLoop rest

/-- `main`: exit code of the program run, `none` when the interaction script
ends with the program still in its loop. -/
def mainProg (env : MainEnv) : Option Nat :=
  if env.uiInitOk = false then some 1
  else
    -- ui.initIGDB(...) always returns true; a catalog failure only degrades
    -- the metadata shown.
    let _igdbOk := initIGDB env.igdbInitOk
    let emuOk := (emuInit "nestopia".toList initialEmuState).1
    if emuOk = false then some 1
    else if env.roms = [] then some 1
    else mainLoop env.selections

/-! ## Supporting lemmas -/

theorem leadsWith_append (pat : List Char) :
    ∀ a b : List Char, leadsWith pat a = true → leadsWith pat (a ++ b) = true := by
  induction pat with
  | nil => intro a b _; rfl
  | cons p ps ih =>
    intro a b h
    cases a with
    | nil => simp [leadsWith] at h
    | cons x xs =>
      simp only [leadsWith, Bool.and_eq_true] at h ⊢
      exact ⟨h.1, ih xs b h.2⟩

theorem truncAtFirstRec_append (pat : List Char) :
    ∀ s : List Char, ∃ u, truncAtFirstRec pat s ++ u = s := by
  intro s
  induction s with
  | nil => exact ⟨[], rfl⟩
  | cons c rest ih =>
    by_cases h : leadsWith pat (c :: rest) = true
    · exact ⟨c :: rest, by simp [truncAtFirstRec, h]⟩
    · obtain ⟨u, hu⟩ := ih
      exact ⟨u, by simp [truncAtFirstRec, h, hu]⟩

theorem strFind_truncAtFirstRec (pat : List Char) (hpat : pat ≠ []) :
    ∀ s : List Char, strFind pat (truncAtFirstRec pat s) = none := by
  intro s
  induction s with
  | nil =>
    cases pat with
    | nil => exact absurd rfl hpat
    | cons p ps => simp [truncAtFirstRec, strFind, List.isEmpty]
  | cons c rest ih =>
    by_cases h : leadsWith pat (c :: rest) = true
    · cases pat with
      | nil => exact absurd rfl hpat
      | cons p ps => simp [truncAtFirstRec, h, strFind, List.isEmpty]
    · have hnot : ¬ leadsWith pat (c :: truncAtFirstRec pat rest) = true := by
        intro hlead
        obtain ⟨u, hu⟩ := truncAtFirstRec_append pat rest
        have h2 : leadsWith pat ((c :: truncAtFirstRec pat rest) ++ u) = true :=
          leadsWith_append pat _ u hlead
        rw [List.cons_append, hu] at h2
        exact h h2
      simp [truncAtFirstRec, h, strFind, hnot, ih]

theorem truncAtFirst_eq_rec (pat : List Char) :
    ∀ s : List Char, truncAtFirst pat s = truncAtFirstRec pat s := by
  intro s
  induction s with
  | nil =>
    cases pat with
    | nil => rfl
    | cons p ps => rfl
  | cons c rest ih =>
    by_cases h : leadsWith pat (c :: rest) = true
    · simp [truncAtFirst, truncAtFirstRec, strFind, h]
    · cases hf : strFind pat rest with
      | none =>
        have hr : truncAtFirstRec pat rest = rest := by
          rw [← ih, truncAtFirst, hf]
        simp [truncAtFirst, truncAtFirstRec, strFind, h, hf, hr]
      | some i =>
        have hr : truncAtFirstRec pat rest = rest.take i := by
          rw [← ih, truncAtFirst, hf]
        simp [truncAtFirst, truncAtFirstRec, strFind, h, hf, hr,
          List.take_succ_cons]

theorem mem_of_mem_truncAtFirstRec (pat s : List Char) (x : Char)
    (h : x ∈ truncAtFirstRec pat s) : x ∈ s := by
  obtain ⟨u, hu⟩ := truncAtFirstRec_append pat s
  rw [← hu]
  exact List.mem_append_left u h

theorem not_underscore_replaceUnderscores (s : List Char) :
    '_' ∉ replaceUnderscores s := by
  intro hmem
  rw [replaceUnderscores, List.mem_map] at hmem
  obtain ⟨c, _, he⟩ := hmem
  by_cases hc : c = '_'
  · rw [if_pos hc] at he
    exact absurd he (by decide)
  · rw [if_neg hc] at he
    exact hc he

/-! ## C1: filename normalization -/

/-- C1 counterexample: on the `fetchGameMetadata` path the filename
`"mario_(U).nes"` normalizes to `"mario (U)"`, whose index-5 substring is
`" ("` — because that path truncates at `" ("` before replacing
underscores, in contrast to `cleanGameName` (which yields `"mario"`).  The
claim that both paths strip, then replace underscores, then truncate — and
hence never leave a `" ("` — is therefore false. -/
theorem c1_counterexample :
    fetchNormalize "mario_(U).nes".toList = "mario (U)".toList ∧
    strFind parenPat (fetchNormalize "mario_(U).nes".toList) = some 5 ∧
    cleanGameName "mario_(U).nes".toList = "mario".toList := by
  refine ⟨by decide, by decide, by decide⟩

/-- C1 (amended): `cleanGameName` (and the identical computation inside
`extractMetadataFromFilename`) strips the extension, replaces every
underscore with a space and then truncates at the first `" ("`; its result
contains no underscore and no occurrence of `" ("`.  The inline
normalization in `fetchGameMetadata` truncates before replacing
underscores; its result still contains no underscore, but may contain
`" ("`. -/
theorem c1_amended_normalization (f : List Char) :
    '_' ∉ cleanGameName f ∧
    strFind parenPat (cleanGameName f) = none ∧
    '_' ∉ fetchNormalize f := by
  refine ⟨?_, ?_, ?_⟩
  · intro h
    rw [cleanGameName, truncAtFirst_eq_rec] at h
    exact not_underscore_replaceUnderscores (stripExt f)
      (mem_of_mem_truncAtFirstRec _ _ _ h)
  · rw [cleanGameName, truncAtFirst_eq_rec]
    exact strFind_truncAtFirstRec parenPat (by decide) _
  · intro h
    rw [fetchNormalize] at h
    exact not_underscore_replaceUnderscores _ h

/-! ## C4: no token → no network, deterministic fallback -/

/-- C4: with an empty stored access token, `fetchGameMetadata` issues no
network operation at all and returns exactly the filename-only record
`extractMetadataFromFilename f`. -/
theorem c4_no_token_no_network (env : FetchEnv) (f : List Char) :
    fetchGameMetadata env [] f = (extractMetadataFromFilename f, []) := by
  simp [fetchGameMetadata]

/-! ## C5: every catalog-side error degrades to the fallback record -/

theorem fetch_fallback_r1_empty (env : FetchEnv) (tok f : List Char)
    (h : env.request "games".toList (searchQuery (fetchNormalize f)) = []) :
    (fetchGameMetadata env tok f).1 = extractMetadataFromFilename f := by
  by_cases ht : tok = []
  · simp [fetchGameMetadata, ht]
  · rw [fetchGameMetadata, if_neg ht]
    simp only []
    rw [if_pos h]

theorem fetch_fallback_parse_none (env : FetchEnv) (tok f : List Char)
    (h : env.parse (env.request "games".toList (searchQuery (fetchNormalize f))) = none) :
    (fetchGameMetadata env tok f).1 = extractMetadataFromFilename f := by
  by_cases ht : tok = []
  · simp [fetchGameMetadata, ht]
  · by_cases h1 : env.request "games".toList (searchQuery (fetchNormalize f)) = []
    · exact fetch_fallback_r1_empty env tok f h1
    · rw [fetchGameMetadata, if_neg ht]
      simp only []
      rw [if_neg h1, h]

theorem fetch_fallback_not_array (env : FetchEnv) (tok f : List Char) (j : Json)
    (h : env.parse (env.request "games".toList (searchQuery (fetchNormalize f))) = some j)
    (hj : ∀ x xs, j ≠ Json.ja (x :: xs)) :
    (fetchGameMetadata env tok f).1 = extractMetadataFromFilename f := by
  by_cases ht : tok = []
  · simp [fetchGameMetadata, ht]
  · by_cases h1 : env.request "games".toList (searchQuery (fetchNormalize f)) = []
    · exact fetch_fallback_r1_empty env tok f h1
    · cases j with
      | ja xs =>
        cases xs with
        | nil =>
          rw [fetchGameMetadata, if_neg ht]
          simp only []
          rw [if_neg h1, h]
        | cons x rest => exact absurd rfl (hj x rest)
      | null =>
        rw [fetchGameMetadata, if_neg ht]; simp only []; rw [if_neg h1, h]
      | jb b =>
        rw [fetchGameMetadata, if_neg ht]; simp only []; rw [if_neg h1, h]
      | jn n =>
        rw [fetchGameMetadata, if_neg ht]; simp only []; rw [if_neg h1, h]
      | js s =>
        rw [fetchGameMetadata, if_neg ht]; simp only []; rw [if_neg h1, h]
      | jo fs =>
        rw [fetchGameMetadata, if_neg ht]; simp only []; rw [if_neg h1, h]

theorem fetch_fallback_map_throws (env : FetchEnv) (tok f : List Char)
    (x : Json) (xs : List Json) (gid : Int) (y : Json) (ys : List Json)
    (hp : env.parse (env.request "games".toList (searchQuery (fetchNormalize f))) =
      some (Json.ja (x :: xs)))
    (hid : x.objFind "id".toList = some (Json.jn gid))
    (hp2 : env.parse (env.request "games".toList (detailQuery gid)) =
      some (Json.ja (y :: ys)))
    (hmap : mapGameRecord env f (fetchNormalize f) y = none) :
    (fetchGameMetadata env tok f).1 = extractMetadataFromFilename f := by
  by_cases ht : tok = []
  · simp [fetchGameMetadata, ht]
  · by_cases h1 : env.request "games".toList (searchQuery (fetchNormalize f)) = []
    · exact fetch_fallback_r1_empty env tok f h1
    · rw [fetchGameMetadata, if_neg ht]
      simp only []
      rw [if_neg h1, hp]
      simp only []
      rw [hid]
      simp only [Json.asInt]
      by_cases h2 : env.request "games".toList (detailQuery gid) = []
      · rw [if_pos h2]
      · rw [if_neg h2, hp2]
        simp only []
        rw [hmap]

theorem fetch_result_shape (env : FetchEnv) (tok f : List Char) :
    (fetchGameMetadata env tok f).1 = extractMetadataFromFilename f ∨
    ∃ game dls, mapGameRecord env f (fetchNormalize f) game =
      some ((fetchGameMetadata env tok f).1, dls) := by
  by_cases ht : tok = []
  · left; simp [fetchGameMetadata, ht]
  · by_cases h1 : env.request "games".toList (searchQuery (fetchNormalize f)) = []
    · left; exact fetch_fallback_r1_empty env tok f h1
    · cases hp : env.parse (env.request "games".toList (searchQuery (fetchNormalize f))) with
      | none => left; exact fetch_fallback_parse_none env tok f hp
      | some j =>
        cases j with
        | null => left; exact fetch_fallback_not_array env tok f _ hp (by intro x xs; simp)
        | jb b => left; exact fetch_fallback_not_array env tok f _ hp (by intro x xs; simp)
        | jn n => left; exact fetch_fallback_not_array env tok f _ hp (by intro x xs; simp)
        | js s => left; exact fetch_fallback_not_array env tok f _ hp (by intro x xs; simp)
        | jo fs => left; exact fetch_fallback_not_array env tok f _ hp (by intro x xs; simp)
        | ja xs =>
          cases xs with
          | nil => left; exact fetch_fallback_not_array env tok f _ hp (by intro x xs; simp)
          | cons x rest =>
            cases hid : x.objFind "id".toList with
            | none =>
              left
              rw [fetchGameMetadata, if_neg ht]
              simp only []
              rw [if_neg h1, hp]
              simp only []
              rw [hid]
            | some idv =>
              cases hasint : idv.asInt with
              | none =>
                left
                rw [fetchGameMetadata, if_neg ht]
                simp only []
                rw [if_neg h1, hp]
                simp only []
                rw [hid]
                simp only []
                rw [hasint]
              | some gid =>
                by_cases h2 : env.request "games".toList (detailQuery gid) = []
                · left
                  rw [fetchGameMetadata, if_neg ht]
                  simp only []
                  rw [if_neg h1, hp]
                  simp only []
                  rw [hid]
                  simp only []
                  rw [hasint]
                  simp only []
                  rw [if_pos h2]
                · cases hp2 : env.parse (env.request "games".toList (detailQuery gid)) with
                  | none =>
                    left
                    rw [fetchGameMetadata, if_neg ht]
                    simp only []
                    rw [if_neg h1, hp]
                    simp only []
                    rw [hid]
                    simp only []
                    rw [hasint]
                    simp only []
                    rw [if_neg h2, hp2]
                  | some j2 =>
                    cases j2 with
                    | null =>
                      left
                      rw [fetchGameMetadata, if_neg ht]
                      simp only []
                      rw [if_neg h1, hp]
                      simp only []
                      rw [hid]
                      simp only []
                      rw [hasint]
                      simp only []
                      rw [if_neg h2, hp2]
                    | jb b =>
                      left
                      rw [fetchGameMetadata, if_neg ht]
                      simp only []
                      rw [if_neg h1, hp]
                      simp only []
                      rw [hid]
                      simp only []
                      rw [hasint]
                      simp only []
                      rw [if_neg h2, hp2]
                    | jn n =>
                      left
                      rw [fetchGameMetadata, if_neg ht]
                      simp only []
                      rw [if_neg h1, hp]
                      simp only []
                      rw [hid]
                      simp only []
                      rw [hasint]
                      simp only []
                      rw [if_neg h2, hp2]
                    | js s =>
                      left
                      rw [fetchGameMetadata, if_neg ht]
                      simp only []
                      rw [if_neg h1, hp]
                      simp only []
                      rw [hid]
                      simp only []
                      rw [hasint]
                      simp only []
                      rw [if_neg h2, hp2]
                    | jo fs2 =>
                      left
                      rw [fetchGameMetadata, if_neg ht]
                      simp only []
                      rw [if_neg h1, hp]
                      simp only []
                      rw [hid]
                      simp only []
                      rw [hasint]
                      simp only []
                      rw [if_neg h2, hp2]
                    | ja ys =>
                      cases ys with
                      | nil =>
                        left
                        rw [fetchGameMetadata, if_neg ht]
                        simp only []
                        rw [if_neg h1, hp]
                        simp only []
                        rw [hid]
                        simp only []
                        rw [hasint]
                        simp only []
                        rw [if_neg h2, hp2]
                      | cons game more =>
                        cases hmap : mapGameRecord env f (fetchNormalize f) game with
                        | none =>
                          left
                          rw [fetchGameMetadata, if_neg ht]
                          simp only []
                          rw [if_neg h1, hp]
                          simp only []
                          rw [hid]
                          simp only []
                          rw [hasint]
                          simp only []
                          rw [if_neg h2, hp2]
                          simp only []
                          rw [hmap]
                        | some res =>
                          rcases res with ⟨m, dls⟩
                          right
                          refine ⟨game, dls, ?_⟩
                          have hres : (fetchGameMetadata env tok f).1 = m := by
                            rw [fetchGameMetadata, if_neg ht]
                            simp only []
                            rw [if_neg h1, hp]
                            simp only []
                            rw [hid]
                            simp only []
                            rw [hasint]
                            simp only []
                            rw [if_neg h2, hp2]
                            simp only []
                            rw [hmap]
                          rw [hres, hmap]

/-- C5: `fetchGameMetadata` is total — its result is either the
filename-only record or a record successfully mapped from a catalog
response object — and each listed failure mode (empty response, malformed
JSON, a response that is not a non-empty array, or an exception thrown
while mapping the detail object) yields exactly the filename-only fallback,
the same result as "not found". -/
theorem c5_errors_fall_back (env : FetchEnv) (tok f : List Char) :
    ((fetchGameMetadata env tok f).1 = extractMetadataFromFilename f ∨
      ∃ game dls, mapGameRecord env f (fetchNormalize f) game =
        some ((fetchGameMetadata env tok f).1, dls)) ∧
    (env.request "games".toList (searchQuery (fetchNormalize f)) = [] →
      (fetchGameMetadata env tok f).1 = extractMetadataFromFilename f) ∧
    (env.parse (env.request "games".toList (searchQuery (fetchNormalize f))) = none →
      (fetchGameMetadata env tok f).1 = extractMetadataFromFilename f) ∧
    (∀ j, env.parse (env.request "games".toList (searchQuery (fetchNormalize f))) = some j →
      (∀ x xs, j ≠ Json.ja (x :: xs)) →
      (fetchGameMetadata env tok f).1 = extractMetadataFromFilename f) ∧
    (∀ (x : Json) (xs : List Json) (gid : Int) (y : Json) (ys : List Json),
      env.parse (env.request "games".toList (searchQuery (fetchNormalize f))) =
        some (Json.ja (x :: xs)) →
      x.objFind "id".toList = some (Json.jn gid) →
      env.parse (env.request "games".toList (detailQuery gid)) =
        some (Json.ja (y :: ys)) →
      mapGameRecord env f (fetchNormalize f) y = none →
      (fetchGameMetadata env tok f).1 = extractMetadataFromFilename f) :=
  ⟨fetch_result_shape env tok f,
   fetch_fallback_r1_empty env tok f,
   fetch_fallback_parse_none env tok f,
   fun j hj hne => fetch_fallback_not_array env tok f j hj hne,
   fun x xs gid y ys hp hid hp2 hmap =>
     fetch_fallback_map_throws env tok f x xs gid y ys hp hid hp2 hmap⟩

/-- An environment on which every transport call fails (empty responses,
failing parses and downloads). -/
def envNoNet : FetchEnv :=
  { request := fun _ _ => []
    parse := fun _ => none
    download := fun _ _ => false
    localtime := fun _ => none }

/-- C5 witness: on a fully failing environment with a non-empty token, the
resolver returns the filename-only fallback. -/
theorem c5_witness :
    (fetchGameMetadata envNoNet "t".toList "a.nes".toList).1 =
      extractMetadataFromFilename "a.nes".toList :=
  (c5_errors_fall_back envNoNet "t".toList "a.nes".toList).2.1 rfl

/-! ## C6: end-to-end fallback record for "super_mario_bros_(U).nes" -/

theorem any_snd_map_false {α : Type} (l : List α) :
    (l.map (fun x => (x, false))).any (fun p => p.2) = false := by
  induction l with
  | nil => rfl
  | cons a rest ih => simp [ih]

theorem readMoreShown_empty_url (width : List Char → Nat) (lineWidth : Nat)
    (descr : List Char) :
    readMoreShown (renderDescription width lineWidth [] descr) = false := by
  rw [renderDescription, if_pos rfl, readMoreShown]
  exact any_snd_map_false _

/-- C6: with no catalog connectivity (empty token), the resolver maps
`"super_mario_bros_(U).nes"` to the record with title `"super mario bros"`,
the `"Not Found"` sentinels for year/publisher/genre, an empty `igdbUrl`
(so no `" Read More"` affordance is ever rendered for the entry), and the
default placeholder image path — and performs no network operation. -/
theorem c6_super_mario_fallback :
    (∀ env : FetchEnv,
      fetchGameMetadata env [] "super_mario_bros_(U).nes".toList =
        (extractMetadataFromFilename "super_mario_bros_(U).nes".toList, [])) ∧
    extractMetadataFromFilename "super_mario_bros_(U).nes".toList =
      { filename := "super_mario_bros_(U).nes".toList
        title := "super mario bros".toList
        description := "No description found in IGDB database".toList
        releaseYear := "Not Found".toList
        publisher := "Not Found".toList
        genre := "Not Found".toList
        igdbUrl := []
        imagePath := "../assets/not_found.png".toList } ∧
    (∀ (width : List Char → Nat) (lineWidth : Nat),
      readMoreShown (renderDescription width lineWidth
        (extractMetadataFromFilename "super_mario_bros_(U).nes".toList).igdbUrl
        (extractMetadataFromFilename "super_mario_bros_(U).nes".toList).description) =
        false) := by
  refine ⟨fun env => ?_, by decide, fun width lineWidth => ?_⟩
  · simp [fetchGameMetadata]
  · exact readMoreShown_empty_url width lineWidth _

/-! ## C7: cover download verification -/

/-- C7: `downloadGameCover` fails without touching the filesystem on an
empty URL or a transport failure; otherwise it writes the body to
`output_path` and succeeds exactly when the written file is non-empty,
deleting the empty file before returning failure. -/
theorem c7_download_verification (env : DlEnv) (url path : List Char)
    (fs : List Char → Option (List Char)) :
    (url = [] → downloadGameCover env url path fs = (false, fs)) ∧
    (env.transport url = none → downloadGameCover env url path fs = (false, fs)) ∧
    (∀ body, env.transport url = some body → env.openOk path = true → url ≠ [] →
      (((downloadGameCover env url path fs).1 = true ↔ body ≠ []) ∧
       (body ≠ [] →
         (downloadGameCover env url path fs).1 = true ∧
         (downloadGameCover env url path fs).2 path = some body ∧
         (∀ q, q ≠ path → (downloadGameCover env url path fs).2 q = fs q)) ∧
       (body = [] →
         (downloadGameCover env url path fs).1 = false ∧
         (downloadGameCover env url path fs).2 path = none ∧
         (∀ q, q ≠ path → (downloadGameCover env url path fs).2 q = fs q)))) := by
  refine ⟨fun hu => ?_, fun htr => ?_, fun body htr hopen hu => ?_⟩
  · rw [downloadGameCover, if_pos hu]
  · by_cases hu : url = []
    · rw [downloadGameCover, if_pos hu]
    · rw [downloadGameCover, if_neg hu, htr]
  · by_cases hb : body = []
    · subst hb
      refine ⟨?_, fun hne => absurd rfl hne, fun _ => ?_⟩
      · simp [downloadGameCover, hu, htr, hopen]
      · refine ⟨?_, ?_, fun q hq => ?_⟩
        · simp [downloadGameCover, hu, htr, hopen]
        · simp [downloadGameCover, hu, htr, hopen]
        · simp [downloadGameCover, hu, htr, hopen, hq]
    · refine ⟨?_, fun _ => ⟨?_, ?_, fun q hq => ?_⟩, fun he => absurd he hb⟩
      · simp [downloadGameCover, hu, htr, hopen, hb, List.length_pos]
      · simp [downloadGameCover, hu, htr, hopen, hb, List.length_pos]
      · simp [downloadGameCover, hu, htr, hopen, hb, List.length_pos]
      · simp [downloadGameCover, hu, htr, hopen, hb, hq, List.length_pos]

/-- A download environment that always yields the four-byte body `"DATA"`
into a writable destination. -/
def dlEnvData : DlEnv :=
  { transport := fun _ => some "DATA".toList
    openOk := fun _ => true }

/-- C7 witness: downloading a non-empty body succeeds and stores the body at
the destination path. -/
theorem c7_witness :
    (downloadGameCover dlEnvData "u".toList "p".toList (fun _ => none)).1 = true ∧
    (downloadGameCover dlEnvData "u".toList "p".toList (fun _ => none)).2
      "p".toList = some "DATA".toList :=
  ⟨(((c7_download_verification dlEnvData "u".toList "p".toList (fun _ => none)).2.2
      "DATA".toList rfl rfl (by decide)).2.1 (by decide)).1,
   (((c7_download_verification dlEnvData "u".toList "p".toList (fun _ => none)).2.2
      "DATA".toList rfl rfl (by decide)).2.1 (by decide)).2.1⟩

/-! ## C2: texture loads are not memoized -/

/-- A decode environment in which every path decodes successfully. -/
def texEnvAll : TexEnv := { decodeOk := fun _ => true }

/-- The SDL state at UI start: nothing decoded yet. -/
def texState0 : TexState := { decodes := [], nextTexId := 0 }

/-- C2 counterexample: loading `"cover.png"` twice performs two decodes and
returns two distinct texture handles — there is no cache keyed by the path,
so the claimed memoization does not exist in the code. -/
theorem c2_counterexample :
    (loadTextureFromFile texEnvAll "cover.png".toList
        ((loadTextureFromFile texEnvAll "cover.png".toList texState0).2)).1 ≠
      (loadTextureFromFile texEnvAll "cover.png".toList texState0).1 ∧
    ((loadTextureFromFile texEnvAll "cover.png".toList
        ((loadTextureFromFile texEnvAll "cover.png".toList texState0).2)).2).decodes =
      ["cover.png".toList, "cover.png".toList] := by
  refine ⟨by decide, by decide⟩

/-- C2 (amended): `loadTextureFromFile` performs a fresh decode on every
call; calling it twice with the same decodable path decodes twice and
returns a second, distinct texture handle.  (On a failed decode it retries
once under `"../assets/"`; no call consults a cache.) -/
theorem c2_amended_no_memoization (env : TexEnv) (path : List Char)
    (st : TexState) (h : env.decodeOk path = true) :
    (loadTextureFromFile env path st).1 = some st.nextTexId ∧
    (loadTextureFromFile env path st).2.decodes = st.decodes ++ [path] ∧
    (loadTextureFromFile env path ((loadTextureFromFile env path st).2)).1 =
      some (st.nextTexId + 1) ∧
    (loadTextureFromFile env path ((loadTextureFromFile env path st).2)).1 ≠
      (loadTextureFromFile env path st).1 ∧
    (loadTextureFromFile env path ((loadTextureFromFile env path st).2)).2.decodes =
      st.decodes ++ [path] ++ [path] := by
  refine ⟨?_, ?_, ?_, ?_, ?_⟩ <;> simp [loadTextureFromFile, h]

/-- C2 witness: the amended theorem applied at the all-decoding environment
and the initial state. -/
theorem c2_witness :
    (loadTextureFromFile texEnvAll "cover.png".toList texState0).1 = some 0 :=
  (c2_amended_no_memoization texEnvAll "cover.png".toList texState0 rfl).1

/-! ## C3: wrapped description rendering -/

theorem renderWrappedGo_length_le (width : List Char → Nat) (lineWidth : Nat) :
    ∀ (fuel k : Nat) (rem : List Char),
      (renderWrappedGo width lineWidth fuel k rem).length ≤ fuel := by
  intro fuel
  induction fuel with
  | zero => intro k rem; simp [renderWrappedGo]
  | succ n ih =>
    intro k rem
    rw [renderWrappedGo]
    by_cases hrem : rem = []
    · simp [hrem]
    · rw [if_neg hrem]
      by_cases htw : width rem = 0
      · simp [htw]
      · rw [if_neg htw]
        simp only []
        split
        · simp
        · simpa using Nat.succ_le_succ (ih (k + 1) _)

theorem renderPlainGo_length_le (width : List Char → Nat) (lineWidth : Nat) :
    ∀ (fuel : Nat) (rem : List Char),
      (renderPlainGo width lineWidth fuel rem).length ≤ fuel := by
  intro fuel
  induction fuel with
  | zero => intro rem; simp [renderPlainGo]
  | succ n ih =>
    intro rem
    rw [renderPlainGo]
    by_cases hrem : rem = []
    · simp [hrem]
    · rw [if_neg hrem]
      by_cases htw : width rem = 0
      · simp [htw]
      · rw [if_neg htw]
        simp only []
        split
        · simp
        · simpa using Nat.succ_le_succ (ih _)

theorem renderWrappedGo_any_iff (width : List Char → Nat) (lineWidth : Nat) :
    ∀ (fuel k : Nat) (rem : List Char),
      ((renderWrappedGo width lineWidth fuel k rem).any (fun p => p.2) = true ↔
        ((k = 0 ∧ 2 ≤ (renderWrappedGo width lineWidth fuel k rem).length) ∨
         (k = 1 ∧ 1 ≤ (renderWrappedGo width lineWidth fuel k rem).length))) := by
  intro fuel
  induction fuel with
  | zero => intro k rem; simp [renderWrappedGo]
  | succ n ih =>
    intro k rem
    rw [renderWrappedGo]
    by_cases hrem : rem = []
    · simp [hrem]
    · rw [if_neg hrem]
      by_cases htw : width rem = 0
      · simp [htw]
      · rw [if_neg htw]
        simp only []
        split
        · by_cases hk : k = 1
          · rw [if_pos hk]
            constructor
            · intro _
              right
              refine ⟨hk, by simp⟩
            · intro _
              simp
          · rw [if_neg hk]
            constructor
            · intro hany
              exact absurd hany (by simp)
            · rintro (⟨h1, h2⟩ | ⟨h1, h2⟩)
              · simp at h2
              · exact absurd h1 hk
        · by_cases hk : k = 1
          · rw [if_pos hk]
            simp only [List.any_cons, List.length_cons, Bool.or_eq_true]
            constructor
            · intro _
              right
              exact ⟨hk, by omega⟩
            · intro _
              left
              simp
          · rw [if_neg hk]
            simp only [List.any_cons, List.length_cons, Bool.or_eq_true]
            rw [ih (k + 1)]
            constructor
            · rintro (hfalse | (⟨h1, h2⟩ | ⟨h1, h2⟩))
              · exact absurd hfalse (by simp)
              · omega
              · left
                exact ⟨by omega, by omega⟩
            · rintro (⟨h1, h2⟩ | ⟨h1, h2⟩)
              · right
                right
                exact ⟨by omega, by omega⟩
              · exact absurd h1 hk

/-- C3 counterexample: with a 1-pixel-per-character font and a 100-pixel
line, the description `"ab cd"` fits entirely on the two rendered lines
(`"ab"` then `"cd"`, nothing truncated), yet `" Read More"` is drawn after
the second line — the source appends it whenever a second line exists, not
only on truncation. -/
theorem c3_counterexample :
    renderDescription (fun s => s.length) 100 "u".toList "ab cd".toList =
      [("ab".toList, false), ("cd".toList, true)] ∧
    "ab".toList ++ ' ' :: "cd".toList = "ab cd".toList := by
  refine ⟨by decide, by decide⟩

/-- C3 (amended): description rendering never draws more than
`MAX_DESCRIPTION_LINES = 2` lines, and the `" Read More"` suffix is drawn
exactly when `igdbUrl` is non-empty and the wrap produces a second line —
whether or not any text was actually truncated. -/
theorem c3_amended_wrap (width : List Char → Nat) (lineWidth : Nat)
    (url descr : List Char) :
    (renderDescription width lineWidth url descr).length ≤ MAX_DESCRIPTION_LINES ∧
    (readMoreShown (renderDescription width lineWidth url descr) = true ↔
      (url ≠ [] ∧ (renderDescription width lineWidth url descr).length = 2)) := by
  by_cases hu : url = []
  · constructor
    · rw [renderDescription, if_pos hu]
      simpa using renderPlainGo_length_le width lineWidth MAX_DESCRIPTION_LINES descr
    · subst hu
      simp [readMoreShown_empty_url]
  · constructor
    · rw [renderDescription, if_neg hu, renderWrappedText]
      by_cases hd : descr = []
      · simp [hd, MAX_DESCRIPTION_LINES]
      · rw [if_neg hd]
        exact renderWrappedGo_length_le width lineWidth MAX_DESCRIPTION_LINES 0 descr
    · rw [renderDescription, if_neg hu, renderWrappedText]
      by_cases hd : descr = []
      · simp [hd, readMoreShown, hu]
      · rw [if_neg hd]
        have hlen2 : (renderWrappedGo width lineWidth MAX_DESCRIPTION_LINES 0 descr).length ≤ 2 :=
          renderWrappedGo_length_le width lineWidth MAX_DESCRIPTION_LINES 0 descr
        rw [readMoreShown, renderWrappedGo_any_iff width lineWidth MAX_DESCRIPTION_LINES 0 descr]
        constructor
        · rintro (⟨_, h2⟩ | ⟨h1, _⟩)
          · exact ⟨hu, by omega⟩
          · exact absurd h1 (by decide)
        · rintro ⟨_, hl⟩
          left
          exact ⟨rfl, by omega⟩

/-! ## C8: list-UI input handling and selection state machine -/

theorem handleInput_sel_inv (width : List Char → Nat) (gl : List GameMetadata) :
    ∀ (evs : List UIEvent) (sel : Int), 0 ≤ sel → sel < gl.length →
      ((handleInput width gl evs sel false).1 = -1 ∨
       (0 ≤ (handleInput width gl evs sel false).1 ∧
        (handleInput width gl evs sel false).1 < gl.length)) := by
  intro evs
  induction evs with
  | nil => intro sel h0 h1; exact Or.inr ⟨h0, h1⟩
  | cons e rest ih =>
    intro sel h0 h1
    cases e with
    | quit => left; rfl
    | keyUp =>
      rw [handleInput]
      by_cases hs : (0 : Int) < sel
      · rw [if_pos hs]
        exact ih (sel - 1) (by omega) (by omega)
      · rw [if_neg hs]
        exact ih sel h0 h1
    | keyDown =>
      rw [handleInput]
      by_cases hs : sel < (gl.length : Int) - 1
      · rw [if_pos hs]
        exact ih (sel + 1) (by omega) (by omega)
      · rw [if_neg hs]
        exact ih sel h0 h1
    | keyReturn => right; exact ⟨h0, h1⟩
    | keyEscape => left; rfl
    | mouseMotion x y => exact ih sel h0 h1
    | mouseDown x y =>
      rw [handleInput]
      cases hhit : readMoreHit width gl x y (GAME_ITEM_PADDING : Int) with
      | some url =>
        simp only [hhit]
        right
        exact ⟨h0, h1⟩
      | none =>
        simp only [hhit]
        exact ih sel h0 h1
    | otherEvent => exact ih sel h0 h1

/-- C8: over a non-empty game list, starting from an in-range cursor the
event handler keeps the cursor in `[0, count-1]` except for the `-1`
cancel signal; the polling loop only ever returns `-1` (cancel/close) or an
in-range index (confirm); a confirm event returns the current cursor with
the selected flag; a quit event signals `-1`; and a click on a
`" Read More"` region only opens the entry's URL, leaving the cursor and
the selected flag unchanged. -/
theorem c8_input_state_machine (width : List Char → Nat)
    (gl : List GameMetadata) (_hgl : gl ≠ []) :
    (∀ (evs : List UIEvent) (sel : Int), 0 ≤ sel → sel < gl.length →
      ((handleInput width gl evs sel false).1 = -1 ∨
       (0 ≤ (handleInput width gl evs sel false).1 ∧
        (handleInput width gl evs sel false).1 < gl.length))) ∧
    (∀ (frames : List (List UIEvent)) (sel : Int), 0 ≤ sel → sel < gl.length →
      ((displayGameListLoop width gl frames sel).1 = none ∨
       (displayGameListLoop width gl frames sel).1 = some (-1) ∨
       (∃ r, (displayGameListLoop width gl frames sel).1 = some r ∧
         0 ≤ r ∧ r < gl.length))) ∧
    (∀ (evs : List UIEvent) (sel : Int),
      handleInput width gl (UIEvent.keyReturn :: evs) sel false = (sel, true, [])) ∧
    (∀ (evs : List UIEvent) (sel : Int) (gs : Bool),
      handleInput width gl (UIEvent.quit :: evs) sel gs = (-1, gs, [])) ∧
    (∀ (x y : Int) (url : List Char) (evs : List UIEvent) (sel : Int),
      readMoreHit width gl x y (GAME_ITEM_PADDING : Int) = some url →
      handleInput width gl (UIEvent.mouseDown x y :: evs) sel false =
        (sel, false, [url])) := by
  refine ⟨handleInput_sel_inv width gl, ?_, ?_, ?_, ?_⟩
  · intro frames
    induction frames with
    | nil => intro sel h0 h1; left; rfl
    | cons frame rest ih =>
      intro sel h0 h1
      rw [displayGameListLoop]
      rcases hstep : handleInput width gl frame sel false with ⟨sel2, gs2, opens⟩
      simp only []
      by_cases hneg : sel2 = -1
      · rw [if_pos hneg]
        right
        left
        rfl
      · rw [if_neg hneg]
        have hinv := handleInput_sel_inv width gl frame sel h0 h1
        rw [hstep] at hinv
        simp only [] at hinv
        cases gs2 with
        | true =>
          rw [if_pos rfl]
          right
          right
          refine ⟨sel2, rfl, ?_⟩
          rcases hinv with hm1 | hrange
          · exact absurd hm1 hneg
          · exact hrange
        | false =>
          simp only [if_false, Bool.false_eq_true]
          rcases hinv with hm1 | hrange
          · exact absurd hm1 hneg
          · exact ih sel2 hrange.1 hrange.2
  · intro evs sel; rfl
  · intro evs sel gs; rfl
  · intro x y url evs sel hhit
    rw [handleInput, hhit]

/-- A one-entry game list used to instantiate the input-handling theorem. -/
def gmEntry : GameMetadata :=
  { filename := "a.nes".toList, title := "a".toList }

/-- C8 witness: with a single entry, pressing Return immediately confirms
entry 0, and the loop returns index 0. -/
theorem c8_witness :
    handleInput (fun s => s.length) [gmEntry] [UIEvent.keyReturn] 0 false =
      (0, true, []) :=
  (c8_input_state_machine (fun s => s.length) [gmEntry]
    (by decide)).2.2.1 [] 0

/-! ## C9: process exit codes -/

theorem mainLoop_ne_one : ∀ sels : List Int, mainLoop sels ≠ some 1 := by
  intro sels
  induction sels with
  | nil => simp [mainLoop]
  | cons sel rest ih =>
    rw [mainLoop]
    by_cases hs : sel = -1
    · simp [hs]
    · simpa [hs] using ih

theorem mainLoop_eq_zero_iff :
    ∀ sels : List Int, mainLoop sels = some 0 ↔ (-1 : Int) ∈ sels := by
  intro sels
  induction sels with
  | nil => simp [mainLoop]
  | cons sel rest ih =>
    rw [mainLoop]
    by_cases hs : sel = -1
    · simp [hs]
    · simp [hs, ih]
      intro h
      exact absurd h.symm hs

/-- C9: the program exits 1 exactly when one of the three fatal conditions
holds — display init failure, emulator-launcher init failure (impossible
here, since `init("nestopia")` always succeeds), or an empty ROM list — it
exits 0 exactly on a user cancel (`-1` selection), and the catalog-client
outcome never influences the exit code. -/
theorem c9_exit_codes (env : MainEnv) :
    (mainProg env = some 1 ↔
      (env.uiInitOk = false ∨
       (emuInit "nestopia".toList initialEmuState).1 = false ∨
       env.roms = [])) ∧
    (mainProg env = some 0 ↔
      (env.uiInitOk = true ∧ env.roms ≠ [] ∧ (-1 : Int) ∈ env.selections)) ∧
    (∀ b, mainProg { env with igdbInitOk := b } = mainProg env) := by
  have hemu : (emuInit "nestopia".toList initialEmuState).1 = true := by decide
  refine ⟨?_, ?_, fun b => rfl⟩
  · cases hui : env.uiInitOk with
    | false => simp [mainProg, hui]
    | true =>
      by_cases hr : env.roms = []
      · simp [mainProg, hui, hr, emuInit]
      · simp [mainProg, hui, hr, emuInit, mainLoop_ne_one env.selections]
  · cases hui : env.uiInitOk with
    | false => simp [mainProg, hui]
    | true =>
      by_cases hr : env.roms = []
      · simp [mainProg, hui, hr, emuInit]
      · simp [mainProg, hui, hr, emuInit, mainLoop_eq_zero_iff env.selections]

/-! ## C10: launch validation and error reporting -/

/-- C10: `launchGame` fails without spawning anything when the launcher is
uninitialized, the ROM file does not exist, or its extension is not
`".nes"`, and in each case `getLastError` afterwards returns the specific
non-empty message (with the offending path for the validation failures);
a successful launch spawns exactly the emulator command and leaves the
stored error message unchanged. -/
theorem c10_launch_validation (env : LaunchEnv) (st : EmuState)
    (romPath : List Char) :
    (st.initialized = false →
      launchGame env st romPath =
        (false, setError st "Emulator not initialized".toList, []) ∧
      getLastError (launchGame env st romPath).2.1 =
        "Emulator not initialized".toList ∧
      getLastError (launchGame env st romPath).2.1 ≠ []) ∧
    (st.initialized = true → env.romExists romPath = false →
      launchGame env st romPath =
        (false, setError st ("ROM file does not exist: ".toList ++ romPath), []) ∧
      getLastError (launchGame env st romPath).2.1 =
        "ROM file does not exist: ".toList ++ romPath ∧
      getLastError (launchGame env st romPath).2.1 ≠ []) ∧
    (st.initialized = true → env.romExists romPath = true →
      pathExtension romPath ≠ ".nes".toList →
      launchGame env st romPath =
        (false, setError st ("Invalid ROM file type: ".toList ++ romPath), []) ∧
      getLastError (launchGame env st romPath).2.1 =
        "Invalid ROM file type: ".toList ++ romPath ∧
      getLastError (launchGame env st romPath).2.1 ≠ []) ∧
    (st.initialized = true → env.romExists romPath = true →
      pathExtension romPath = ".nes".toList →
      env.runCommand (launchCommand st.emulatorPath romPath) = 0 →
      launchGame env st romPath =
        (true, st, [launchCommand st.emulatorPath romPath]) ∧
      (launchGame env st romPath).2.1.lastError = st.lastError) := by
  refine ⟨fun hinit => ?_, fun hinit hex => ?_, fun hinit hex hext => ?_,
    fun hinit hex hext hrun => ?_⟩
  · have hni : ¬ st.initialized = false → False := fun hc => hc hinit
    refine ⟨?_, ?_, ?_⟩ <;>
      simp [launchGame, hinit, setError, getLastError]
  · refine ⟨?_, ?_, ?_⟩ <;>
      simp [launchGame, hinit, validateRom, hex, setError, getLastError]
  · have hext2 : ¬ pathExtension romPath = ['.', 'n', 'e', 's'] := by
      simpa using hext
    refine ⟨?_, ?_, ?_⟩ <;>
      simp [launchGame, hinit, validateRom, hex, hext2, setError, getLastError]
  · refine ⟨?_, ?_⟩ <;>
      simp [launchGame, hinit, validateRom, hex, hext, hrun, setError, getLastError]

/-- A launch environment in which every ROM file exists and every spawned
command reports success. -/
def launchEnvOk : LaunchEnv :=
  { romExists := fun _ => true, runCommand := fun _ => 0 }

/-- C10 witness: before `init`, launching fails with the uninitialized
message and spawns nothing; after `init("nestopia")`, launching a ".nes"
path succeeds without touching the stored error. -/
theorem c10_witness :
    launchGame launchEnvOk initialEmuState "games/a.nes".toList =
      (false, setError initialEmuState "Emulator not initialized".toList, []) ∧
    launchGame launchEnvOk (emuInit "nestopia".toList initialEmuState).2
        "games/a.nes".toList =
      (true, (emuInit "nestopia".toList initialEmuState).2,
        [launchCommand
          (emuInit "nestopia".toList initialEmuState).2.emulatorPath
          "games/a.nes".toList]) :=
  ⟨((c10_launch_validation launchEnvOk initialEmuState "games/a.nes".toList).1
      rfl).1,
   ((c10_launch_validation launchEnvOk (emuInit "nestopia".toList initialEmuState).2
      "games/a.nes".toList).2.2.2 rfl rfl (by decide) rfl).1⟩

end RetroEmulator
